import Mathlib

/-
Verification of the Baserow field-dependency update collector and formula
function definitions, shallowly embedded from
`src/backend/src/baserow/contrib/database/fields/dependencies/update_collector.py`
and `src/backend/src/baserow/contrib/database/formula/ast/function_defs.py`.

Django model instances are represented by small structures carrying the
attributes the embedded code reads; Django `Q` filter objects are an explicit
inductive mirroring the kwargs the code constructs, with `qCombineOr`
reproducing `Q.__or__`'s behaviour of discarding empty operands.
-/

set_option maxHeartbeats 1000000
set_option linter.unusedVariables false

namespace Baserow

/-- A database table; Django model equality is primary-key equality. -/
structure Table where
  id : Nat
  deriving DecidableEq, Repr

/-- A field (column) with its owning table and database column name. -/
structure Field where
  id : Nat
  table : Table
  db_column : String
  deriving DecidableEq, Repr

/-- A link-row (many-to-many) field: it lives in `table`, points at rows of
`link_row_table`, and is paired with a reciprocal field in the target table
whose primary key is `link_row_related_field_id`. -/
structure LinkRowField where
  id : Nat
  table : Table
  link_row_table : Table
  db_column : String
  link_row_related_field_id : Nat
  deriving DecidableEq, Repr

/-- An opaque Django recompute expression; the collector only stores and moves
these around, never inspects them. -/
structure DbExpression where
  id : Nat
  deriving DecidableEq, Repr

/-- Python dict lookup on an insertion-ordered association list. -/
def dictGet {α : Type} : List (String × α) → String → Option α
  | [], _ => none
  | (k2, v) :: rest, k => if k2 = k then some v else dictGet rest k

/-- Python dict assignment `d[k] = v`: replaces in place, else appends. -/
def dictSet {α : Type} : List (String × α) → String → α → List (String × α)
  | [], k, v => [(k, v)]
  | (k2, v2) :: rest, k, v =>
    if k2 = k then (k, v) :: rest else (k2, v2) :: dictSet rest k v

/-- Lookup in the `deleted_m2m_rels_per_link_field` dict (keys are field ids). -/
def natDictGet : List (Nat × List Nat) → Nat → Option (List Nat)
  | [], _ => none
  | (k2, v) :: rest, k => if k2 = k then some v else natDictGet rest k

/-- `PathBasedUpdateStatementCollector`: a tree node per table reachable from
the starting table; `update_statements` maps db columns to recompute
expressions, `sub_paths` maps a link field's db column to the child collector. -/
inductive Collector : Type where
  | node (table : Table) (connection_here : Option LinkRowField)
      (update_statements : List (String × DbExpression))
      (sub_paths : List (String × Collector))

def Collector.table : Collector → Table
  | .node t _ _ _ => t

def Collector.connection_here : Collector → Option LinkRowField
  | .node _ c _ _ => c

def Collector.update_statements : Collector → List (String × DbExpression)
  | .node _ _ s _ => s

def Collector.sub_paths : Collector → List (String × Collector)
  | .node _ _ _ s => s

/-- The `InvalidViaPath` exception raised by the collector. -/
inductive CollectorError : Type where
  | invalidViaPath
  deriving DecidableEq, Repr

/-- `PathBasedUpdateStatementCollector.add_update_statement`: with an empty
path the statement is recorded at this node (whose table must be the field's
table); otherwise the first link of the path must point at this node's table
and the statement is pushed into the sub-collector keyed by that link's db
column, which is created if absent. -/
def add_update_statement (c : Collector) (field : Field)
    (update_statement : DbExpression) :
    List LinkRowField → Except CollectorError Collector
  | [] =>
    if c.table ≠ field.table then .error .invalidViaPath
    else .ok (.node c.table c.connection_here
      (dictSet c.update_statements field.db_column update_statement) c.sub_paths)
  | next_via_field_link :: rest =>
    if next_via_field_link.link_row_table ≠ c.table then .error .invalidViaPath
    else
      let next_link_db_column := next_via_field_link.db_column
      let sub :=
        match dictGet c.sub_paths next_link_db_column with
        | some s => s
        | none => Collector.node next_via_field_link.table (some next_via_field_link) [] []
      match add_update_statement sub field update_statement rest with
      | .error e => .error e
      | .ok sub2 =>
        .ok (.node c.table c.connection_here c.update_statements
          (dictSet c.sub_paths next_link_db_column sub2))

/-- Value of a Django `Q` kwarg: a bare row id, or a list of ids (for an
`__in` lookup, which is what the code always uses for list values). -/
inductive QValue : Type where
  | single (rowId : Nat)
  | listOf (rowIds : List Nat)
  deriving DecidableEq, Repr

/-- A Django `Q` filter as the collector builds it. A kwarg key such as
`"fieldA__fieldB__id"` is kept as its component list `["fieldA", "fieldB", "id"]`. -/
inductive QFilter : Type where
  | qEmpty
  | qKw (keyPath : List String) (v : QValue)
  | qDisj (a b : QFilter)
  deriving DecidableEq, Repr

/-- Django `Q.__or__`: an empty `Q()` operand is dropped rather than forming
an OR node (`Q()` is falsy and `_combine` returns the other side). -/
def qCombineOr (a b : QFilter) : QFilter :=
  match a, b with
  | .qEmpty, b => b
  | a, .qEmpty => a
  | a, b => .qDisj a b

/-- `starting_row_id`: a single row id or a list of row ids (the `None` case
is `Option.none` at the use sites). -/
inductive StartingRowIds : Type where
  | single (id : Nat)
  | multiple (ids : List Nat)
  deriving DecidableEq, Repr

/-- The Django manager chosen for the bulk update queryset. -/
inductive TableManager : Type where
  | objects
  | objects_and_trash
  deriving DecidableEq, Repr

/-- One executed bulk UPDATE: the target table, the manager the queryset came
from, the column-to-expression assignments, and the row filter (none when the
queryset was not filtered at all). -/
structure ExecutedUpdate where
  table : Table
  manager : TableManager
  columns : List (String × DbExpression)
  rowFilter : Option QFilter
  deriving DecidableEq, Repr

/-- `_include_rows_connected_to_deleted_m2m_relationships`: returns `Q()`
unless a non-empty path and a deleted-m2m dict entry for the last hop's
`link_row_related_field_id` exist, in which case it ORs in a filter on the
ids reachable along the path after the starting table. -/
def _include_rows_connected_to_deleted_m2m_relationships
    (deleted_m2m_rels_per_link_field : Option (List (Nat × List Nat)))
    (path_to_starting_table : List LinkRowField) : QFilter :=
  match deleted_m2m_rels_per_link_field with
  | none => .qEmpty
  | some rels =>
    match path_to_starting_table.getLast? with
    | none => .qEmpty
    | some last_link =>
      let link_row_field_in_starting_table := last_link.link_row_related_field_id
      match natDictGet rels link_row_field_in_starting_table with
      | none => .qEmpty
      | some row_ids =>
        let path_to_table_after_starting_table :=
          path_to_starting_table.dropLast.map (fun p => p.db_column)
        qCombineOr .qEmpty
          (.qKw (path_to_table_after_starting_table ++ ["id"]) (.listOf row_ids))

/-- `_execute_pending_update_statements`: one bulk UPDATE on
`model.objects_and_trash`, filtered only when a starting row id is given, by
the disjunction of the join-back-to-starting-row kwarg and the
deleted-m2m-relationship filter. -/
def _execute_pending_update_statements (c : Collector)
    (path_to_starting_table : List LinkRowField)
    (starting_row_id : Option StartingRowIds)
    (deleted_m2m_rels_per_link_field : Option (List (Nat × List Nat))) :
    ExecutedUpdate :=
  let rowFilter : Option QFilter :=
    match starting_row_id with
    | none => none
    | some sri =>
      let path_to_starting_table_id_column : List String :=
        if path_to_starting_table = [] then ["id"]
        else path_to_starting_table.map (fun p => p.db_column) ++ ["id"]
      let v : QValue :=
        match sri with
        | .single i => .single i
        | .multiple ids => .listOf ids
      some (qCombineOr
        (.qKw path_to_starting_table_id_column v)
        (_include_rows_connected_to_deleted_m2m_relationships
          deleted_m2m_rels_per_link_field path_to_starting_table))
  { table := c.table
    manager := .objects_and_trash
    columns := c.update_statements
    rowFilter := rowFilter }

/-- The path a node passes to `_execute_pending_update_statements` and to its
children: its own `connection_here` prepended to the incoming path. -/
def consConnection (c : Collector) (path_to_starting_table : List LinkRowField) :
    List LinkRowField :=
  match c.connection_here with
  | none => path_to_starting_table
  | some l => l :: path_to_starting_table

mutual

/-- `execute_all`: executes this node's pending update statements, then
recursively each sub-path's, threading the accumulated path. The returned
list is the sequence of bulk UPDATEs in execution order. -/
def execute_all (c : Collector) (starting_row_id : Option StartingRowIds)
    (path_to_starting_table : List LinkRowField)
    (deleted_m2m_rels_per_link_field : Option (List (Nat × List Nat))) :
    List ExecutedUpdate :=
  _execute_pending_update_statements c (consConnection c path_to_starting_table)
      starting_row_id deleted_m2m_rels_per_link_field
    :: execute_all_sub_paths c.sub_paths starting_row_id
        (consConnection c path_to_starting_table) deleted_m2m_rels_per_link_field
termination_by sizeOf c
decreasing_by
  cases c with
  | node t conn stmts subs => simp [Collector.sub_paths]

/-- Iteration over `self.sub_paths.values()` in insertion order. -/
def execute_all_sub_paths (subs : List (String × Collector))
    (starting_row_id : Option StartingRowIds)
    (path : List LinkRowField)
    (deleted_m2m_rels_per_link_field : Option (List (Nat × List Nat))) :
    List ExecutedUpdate :=
  match subs with
  | [] => []
  | (_, sub) :: rest =>
    execute_all sub starting_row_id path deleted_m2m_rels_per_link_field
      ++ execute_all_sub_paths rest starting_row_id path deleted_m2m_rels_per_link_field
termination_by sizeOf subs
decreasing_by
  all_goals (simp; try omega)

end

mutual

/-- Number of table-nodes in a collector tree. -/
def count_nodes (c : Collector) : Nat :=
  1 + count_nodes_sub c.sub_paths
termination_by sizeOf c
decreasing_by
  cases c with
  | node t conn stmts subs => simp [Collector.sub_paths]

def count_nodes_sub (subs : List (String × Collector)) : Nat :=
  match subs with
  | [] => 0
  | (_, sub) :: rest => count_nodes sub + count_nodes_sub rest
termination_by sizeOf subs
decreasing_by
  all_goals (simp; try omega)

end

/-- A row of some table, as the ORM filter sees it: its primary key, whether
it is trashed (soft-deleted), and for every join chain of m2m columns the ids
of the rows reachable from it through that chain. -/
structure TrackedRow where
  id : Nat
  trashed : Bool
  reach : List String → List Nat

/-- The row ids a kwarg key denotes for a row: the key `["id"]` is the row's
own primary key, and a key `cols ++ ["id"]` is the set of ids joined through
the column chain `cols`. -/
def rowJoinedIds (r : TrackedRow) (keyPath : List String) : List Nat :=
  if keyPath = ["id"] then [r.id] else r.reach keyPath.dropLast

/-- A bare value kwarg matches when the denoted ids contain it; an `__in`
list kwarg matches when they meet the list. -/
def qvalueMatches (ids : List Nat) : QValue → Bool
  | .single n => ids.contains n
  | .listOf ns => ids.any (fun i => ns.contains i)

def rowMatchesKw (r : TrackedRow) (keyPath : List String) (v : QValue) : Bool :=
  qvalueMatches (rowJoinedIds r keyPath) v

/-- Whether a row satisfies a `Q` filter; the empty `Q()` matches every row. -/
def qMatches (r : TrackedRow) : QFilter → Bool
  | .qEmpty => true
  | .qKw k v => rowMatchesKw r k v
  | .qDisj a b => qMatches r a || qMatches r b

/-- Which rows a Django manager yields: `objects_and_trash` includes trashed
rows, the plain `objects` manager excludes them. -/
def TableManager.includesRow : TableManager → TrackedRow → Bool
  | .objects, r => !r.trashed
  | .objects_and_trash, _ => true

/-- Whether an executed bulk UPDATE touches a given row: the row must come
from the chosen manager and satisfy the filter, if any. -/
def execRowMatches (u : ExecutedUpdate) (r : TrackedRow) : Bool :=
  u.manager.includesRow r &&
    (match u.rowFilter with
     | none => true
     | some f => qMatches r f)

/-- Stated from the claim: part (a) of C1, a row matches when its id, joined
back along the accumulated link path to the starting table, equals or is
contained in the starting row id(s). -/
def reachesStartingRowsSpec (r : TrackedRow) (path : List LinkRowField)
    (sri : StartingRowIds) : Bool :=
  let ids := if path = [] then [r.id] else r.reach (path.map (fun p => p.db_column))
  match sri with
  | .single i => ids.contains i
  | .multiple l => ids.any (fun x => l.contains x)

/-- Stated from the claim: part (b) of C1, a row matches when the deleted-link
map has an entry keyed by the `link_row_related_field_id` of the path's last
hop and the row's id, joined along the path after the starting table, is in
that entry's row-id set. -/
def severedLinkRowsSpec (r : TrackedRow) (path : List LinkRowField)
    (del : Option (List (Nat × List Nat))) : Bool :=
  match del, path.getLast? with
  | some rels, some lastLink =>
    match natDictGet rels lastLink.link_row_related_field_id with
    | some rowIds =>
      let after := path.dropLast
      let ids := if after = [] then [r.id] else r.reach (after.map (fun p => p.db_column))
      ids.any (fun x => rowIds.contains x)
    | none => false
  | _, _ => false

/-- `NodeIn d c`: `d` is a node of the collector tree `c`. -/
inductive NodeIn : Collector → Collector → Prop where
  | refl (c : Collector) : NodeIn c c
  | step {d c : Collector} {k : String} {sub : Collector}
      (hmem : (k, sub) ∈ c.sub_paths) (hd : NodeIn d sub) : NodeIn d c

/-- `DescendantVia c inPath d dIn`: starting `execute_all` at `c` with
incoming path `inPath`, the proper descendant node `d` is executed with
incoming path `dIn`. -/
inductive DescendantVia :
    Collector → List LinkRowField → Collector → List LinkRowField → Prop where
  | child {c : Collector} {inPath : List LinkRowField} {k : String} {sub : Collector}
      (hmem : (k, sub) ∈ c.sub_paths) :
      DescendantVia c inPath sub (consConnection c inPath)
  | step {c : Collector} {inPath : List LinkRowField} {k : String} {sub : Collector}
      {d : Collector} {dIn : List LinkRowField}
      (hmem : (k, sub) ∈ c.sub_paths)
      (hd : DescendantVia sub (consConnection c inPath) d dIn) :
      DescendantVia c inPath d dIn

/-- Helper mirroring the traversal of `add_update_statement`: the table of the
node the given path leads to (following existing sub-collectors, or the nodes
the call would create), or `none` when some hop's `link_row_table` does not
match the node it is attached under. -/
def finalTableOf : Collector → List LinkRowField → Option Table
  | c, [] => some c.table
  | c, next :: rest =>
    if next.link_row_table ≠ c.table then none
    else
      let sub :=
        match dictGet c.sub_paths next.db_column with
        | some s => s
        | none => Collector.node next.table (some next) [] []
      finalTableOf sub rest

/-- Walk a collector tree along sub-path keys. -/
def nodeAtPathCols : Collector → List String → Option Collector
  | c, [] => some c
  | c, k :: ks =>
    match dictGet c.sub_paths k with
    | some s => nodeAtPathCols s ks
    | none => none

/-- A link from table 2 back to table 1, used by the concrete witnesses. -/
def exampleLink : LinkRowField :=
  { id := 5, table := Table.mk 2, link_row_table := Table.mk 1,
    db_column := "field_5", link_row_related_field_id := 6 }

/-- A one-node child collector fixture for the witnesses. -/
def exampleChildCollector : Collector :=
  .node (Table.mk 2) (some exampleLink) [("field_9", DbExpression.mk 9)] []

/-- A two-node collector tree fixture for the witnesses. -/
def exampleRootCollector : Collector :=
  .node (Table.mk 1) none [("field_8", DbExpression.mk 8)]
    [("field_5", exampleChildCollector)]

/-
Formula engine: the fragments of `function_defs.py` the claims are about.
-/

/-- The Baserow formula value types (a closed set of Python classes). -/
inductive BaserowFormulaType : Type where
  | text
  | char
  | number (number_decimal_places : Nat)
  | boolean
  | date
  | dateInterval
  | singleSelect
  | array (inner : BaserowFormulaType)
  | invalid (error : String)
  deriving DecidableEq, Repr

/-- The per-class `type` discriminator string of a formula type; two types
are instances of the same Python class exactly when these strings agree. -/
def formulaTypeName : BaserowFormulaType → String
  | .text => "text"
  | .char => "char"
  | .number _ => "number"
  | .boolean => "boolean"
  | .date => "date"
  | .dateInterval => "date_interval"
  | .singleSelect => "single_select"
  | .array _ => "array"
  | .invalid _ => "invalid"

/-- A typed formula expression: literals carry their resolved type, and a
function call carries its resolved result type (`with_valid_type` /
`with_invalid_type` annotate the call node). -/
inductive BExpr : Type where
  | literalNum (q : ℚ) (dp : Nat)
  | literalText (s : String)
  | call (fn : String) (args : List BExpr) (resultType : BaserowFormulaType)
  deriving Repr

/-- The `expression_type` of a typed expression. -/
def exprType : BExpr → BaserowFormulaType
  | .literalNum _ dp => .number dp
  | .literalText _ => .text
  | .call _ _ t => t

/-- Modelled from the spec: `BaserowToText.type_function` delegates to the
argument type's `cast_to_text`, defined in
`baserow.contrib.database.formula.types.formula_types`, which is not under
`src/`; per the spec every valid type exposes a `castToText` operation, which
yields the `totext` call annotated with the text type. -/
def totext_type_function (arg : BExpr) : BExpr :=
  .call "totext" [arg] .text

/-- `BaserowEqual.type_function` (used by `equal` and, through
`self.__class__()`, by its subtype `not_equal`): if the two argument types
are the same class the call is typed boolean, otherwise the call is replaced
by the same comparison applied to `totext` of both arguments, re-typed by
re-entering this very function. -/
def equal_type_function (fn : String) (arg1 arg2 : BExpr) : BExpr :=
  if formulaTypeName (exprType arg1) = formulaTypeName (exprType arg2) then
    .call fn [arg1, arg2] .boolean
  else
    equal_type_function fn (totext_type_function arg1) (totext_type_function arg2)
termination_by
  (if formulaTypeName (exprType arg1) = formulaTypeName (exprType arg2) then 0 else 1)
decreasing_by
  simp_all [totext_type_function, exprType, formulaTypeName]

/-- `BaserowWhenEmpty.type_function`. The source computes
`func_call.with_invalid_type("both inputs for when_empty must be the same
type")` when the two argument types differ, but lacks a `return` there: the
invalid-typed call is discarded and the function unconditionally returns
`func_call.with_valid_type(arg1.expression_type)`. (`with_invalid_type` /
`with_valid_type` live in `formula.ast.tree`, not under `src/`; modelled from
the spec as returning the call annotated with the type, not mutating it.) -/
def when_empty_type_function (fn : String) (arg1 arg2 : BExpr) : BExpr :=
  let _discarded_invalid :=
    if formulaTypeName (exprType arg1) ≠ formulaTypeName (exprType arg2) then
      some (BExpr.call fn [arg1, arg2]
        (.invalid "both inputs for when_empty must be the same type"))
    else none
  .call fn [arg1, arg2] (exprType arg1)

/-- Modelled from the spec: `NUMBER_MAX_DECIMAL_PLACES` is defined in
`baserow.contrib.database.fields.models`, which is not under `src/`; the spec
fixes the maximum at 5 decimal places. -/
def NUMBER_MAX_DECIMAL_PLACES : Nat := 5

/-- `BaserowDivide.type_function`: a division is always typed as a number
with the maximum number of decimal places. -/
def divide_type_function (fn : String) (arg1 arg2 : BExpr) : BExpr :=
  .call fn [arg1, arg2] (.number NUMBER_MAX_DECIMAL_PLACES)

/-- A PostgreSQL `numeric` value: an exact decimal, or the NaN sentinel. -/
inductive PgNumeric : Type where
  | nan
  | num (q : ℚ)
  deriving DecidableEq, Repr

/-- `EqualsExpr(arg2, 0)` on numerics: NaN compares unequal to zero. -/
def pgEqualsZero : PgNumeric → Bool
  | .nan => false
  | .num q => q = 0

/-- `Case(When(condition=EqualsExpr(arg2, 0), then=Value(Decimal("NaN"))),
default=arg2)`: swap a zero divisor for NaN, keep anything else. -/
def caseWhenZeroThenNaN (arg2 : PgNumeric) : PgNumeric :=
  if pgEqualsZero arg2 then .nan else arg2

/-- Raw SQL numeric division: raises on a zero divisor, propagates NaN. -/
def pgDiv (a b : PgNumeric) : Except String PgNumeric :=
  match b with
  | .num q =>
    if q = 0 then .error "division_by_zero"
    else
      match a with
      | .nan => .ok .nan
      | .num p => .ok (.num (p / q))
  | .nan => .ok .nan

/-- `BaserowDivide.to_django_expression`: `arg1 / Case(...)`, i.e. the raw
division applied to the divisor with zero swapped for NaN. -/
def baserowDivide (arg1 arg2 : PgNumeric) : Except String PgNumeric :=
  pgDiv arg1 (caseWhenZeroThenNaN arg2)

/-- A scalar formula value produced by evaluating an expression. -/
inductive FormulaValue : Type where
  | vText (s : String)
  | vNum (q : ℚ) (dp : Nat)
  | vBool (b : Bool)
  deriving DecidableEq, Repr

def digitChar (d : Nat) : Char := Char.ofNat (48 + d)

def natDigitsAux : Nat → Nat → List Char
  | 0, _ => []
  | fuel + 1, n =>
    if n < 10 then [digitChar n]
    else natDigitsAux fuel (n / 10) ++ [digitChar (n % 10)]

def natToDecimalString (n : Nat) : String := String.mk (natDigitsAux (n + 1) n)

def padLeftZeros (s : List Char) (len : Nat) : List Char :=
  List.replicate (len - s.length) (digitChar 0) ++ s

/-- Modelled from the spec: the fixed-precision decimal string a number cell
displays (the serializer rendering a `numeric` of the field's decimal places
is not under `src/`): the value rounded half-up at `dp` decimal places,
written with exactly `dp` fractional digits. -/
def renderDecimal (q : ℚ) (dp : Nat) : String :=
  let scaled : Int := Int.floor (q * (10 : ℚ) ^ dp + 1 / 2)
  let sign := if scaled < 0 then "-" else ""
  let m := scaled.natAbs
  let intPart := m / 10 ^ dp
  let fracPart := m % 10 ^ dp
  if dp = 0 then sign ++ natToDecimalString intPart
  else
    sign ++ natToDecimalString intPart ++ "." ++
      String.mk (padLeftZeros (natDigitsAux (fracPart + 1) fracPart) dp)

/-- Evaluation of the small typed-expression fragment the claims exercise:
literals, `totext` (text cast, numbers rendered at their type's decimal
places), and the `equal` comparison on two values of the same kind. -/
def evalFormula : BExpr → Option FormulaValue
  | .literalNum q dp => some (.vNum q dp)
  | .literalText s => some (.vText s)
  | .call "totext" [x] _ =>
    match evalFormula x with
    | some (.vNum q dp) => some (.vText (renderDecimal q dp))
    | some (.vText s) => some (.vText s)
    | some (.vBool b) => some (.vText (if b then "true" else "false"))
    | none => none
  | .call "equal" [x, y] _ =>
    match evalFormula x, evalFormula y with
    | some (.vText s1), some (.vText s2) => some (.vBool (s1 = s2))
    | some (.vNum q1 _), some (.vNum q2 _) => some (.vBool (q1 = q2))
    | some (.vBool b1), some (.vBool b2) => some (.vBool (b1 = b2))
    | _, _ => none
  | .call _ _ _ => none

/-- `PendingJoin`: one link-traversal hop recorded during compilation. -/
structure PendingJoin where
  join_path : String
  join_table : String
  deriving DecidableEq, Repr

/-- `_calculate_aggregate_orders`: walk the pending joins in reverse and for
each append its join path suffixed `__order`, then suffixed `__id`. -/
def _calculate_aggregate_orders (pending_joins : List PendingJoin) : List String :=
  pending_joins.reverse.foldl
    (fun orders pending_join =>
      orders ++ [pending_join.join_path ++ "__order", pending_join.join_path ++ "__id"])
    []

/-- The `BaserowStringAgg` expression `BaserowAggJoin` lowers to: the value
and delimiter expressions plus the aggregation ordering keys. -/
structure StringAggExpr where
  value : DbExpression
  delimiter : DbExpression
  ordering : List String
  deriving DecidableEq, Repr

/-- `BaserowAggJoin.to_django_expression_given_args`: builds a
`BaserowStringAgg(args[0], args[1], ordering=_calculate_aggregate_orders(
func_call.pending_joins))`; `none` models the `IndexError` when fewer than
two lowered arguments are supplied. -/
def agg_join_to_django_expression_given_args (args : List DbExpression)
    (pending_joins : List PendingJoin) : Option StringAggExpr :=
  match args with
  | a :: b :: _ =>
    some { value := a
           delimiter := b
           ordering := _calculate_aggregate_orders pending_joins }
  | _ => none

/-
Theorems. Shared helper lemmas come first, then one theorem (plus witness or
counterexample material) per claim.
-/

lemma dictGet_dictSet_self {α : Type} (l : List (String × α)) (k : String) (v : α) :
    dictGet (dictSet l k v) k = some v := by
  induction l with
  | nil => simp [dictSet, dictGet]
  | cons hd tl ih =>
    obtain ⟨k2, v2⟩ := hd
    by_cases h : k2 = k
    · simp [dictSet, dictGet, h]
    · simp [dictSet, dictGet, h, ih]

lemma execute_all_eq (c : Collector) (sri : Option StartingRowIds)
    (inPath : List LinkRowField) (del : Option (List (Nat × List Nat))) :
    execute_all c sri inPath del
      = _execute_pending_update_statements c (consConnection c inPath) sri del
          :: execute_all_sub_paths c.sub_paths sri (consConnection c inPath) del := by
  rw [execute_all]

lemma execute_all_sub_paths_nil (sri : Option StartingRowIds)
    (path : List LinkRowField) (del : Option (List (Nat × List Nat))) :
    execute_all_sub_paths [] sri path del = [] := by
  rw [execute_all_sub_paths]

lemma execute_all_sub_paths_cons (k : String) (sub : Collector)
    (rest : List (String × Collector)) (sri : Option StartingRowIds)
    (path : List LinkRowField) (del : Option (List (Nat × List Nat))) :
    execute_all_sub_paths ((k, sub) :: rest) sri path del
      = execute_all sub sri path del ++ execute_all_sub_paths rest sri path del := by
  rw [execute_all_sub_paths]

lemma count_nodes_eq (c : Collector) :
    count_nodes c = 1 + count_nodes_sub c.sub_paths := by
  rw [count_nodes]

lemma count_nodes_sub_nil : count_nodes_sub [] = 0 := by
  rw [count_nodes_sub]

lemma count_nodes_sub_cons (k : String) (sub : Collector)
    (rest : List (String × Collector)) :
    count_nodes_sub ((k, sub) :: rest) = count_nodes sub + count_nodes_sub rest := by
  rw [count_nodes_sub]

lemma mem_sizeOf_lt {α : Type} [SizeOf α] {a : α} {l : List α} (h : a ∈ l) :
    sizeOf a < sizeOf l := by
  induction h with
  | head l => simp; omega
  | tail b hm ih => simp; omega

/-- Structural induction over a collector tree, descending through the
`sub_paths` association list. -/
def collectorStrongInduction {motive : Collector → Prop}
    (h : ∀ t conn stmts subs,
        (∀ k sub, (k, sub) ∈ subs → motive sub) → motive (.node t conn stmts subs)) :
    ∀ c, motive c
  | .node t conn stmts subs =>
    h t conn stmts subs (fun _ sub hmem => collectorStrongInduction h sub)
termination_by c => sizeOf c
decreasing_by
  have h1 := mem_sizeOf_lt hmem
  simp at h1
  simp
  omega

/-- Claim C10: with no starting row scope, the pending update statements of a
node run as a bulk UPDATE over the `objects_and_trash` queryset with no row
filter at all, so every row of the node's table — trashed rows included —
is updated. -/
theorem no_starting_row_scope_updates_all_rows_and_trash
    (c : Collector) (path : List LinkRowField)
    (del : Option (List (Nat × List Nat))) (r : TrackedRow) :
    (_execute_pending_update_statements c path none del).rowFilter = none
  ∧ (_execute_pending_update_statements c path none del).manager
      = .objects_and_trash
  ∧ execRowMatches (_execute_pending_update_statements c path none del) r = true := by
  refine ⟨rfl, rfl, ?_⟩
  simp [execRowMatches, _execute_pending_update_statements, TableManager.includesRow]

/-- Claim C7: `add_update_statement` raises `InvalidViaPath` whenever the
table the path leads to is not the field's owning table (or a hop of the
path does not link to the node it is attached under, making the walk fail),
and otherwise walks the tree along the link path, creating intermediate
nodes as needed, and records the update expression at the leaf node, whose
table is the field's table. -/
theorem add_update_statement_validates_path_and_records_at_leaf
    (c : Collector) (field : Field) (stmt : DbExpression)
    (path : List LinkRowField) :
    (finalTableOf c path ≠ some field.table →
       add_update_statement c field stmt path = .error .invalidViaPath)
  ∧ (finalTableOf c path = some field.table →
       ∃ c2 leaf, add_update_statement c field stmt path = .ok c2
         ∧ nodeAtPathCols c2 (path.map (fun p => p.db_column)) = some leaf
         ∧ leaf.table = field.table
         ∧ dictGet leaf.update_statements field.db_column = some stmt) := by
  induction path generalizing c with
  | nil =>
    constructor
    · intro h
      have hne : c.table ≠ field.table := by
        intro he
        exact h (by simp [finalTableOf, he])
      simp [add_update_statement, hne]
    · intro h
      have heq : c.table = field.table := by
        simpa [finalTableOf] using h
      refine ⟨.node c.table c.connection_here
          (dictSet c.update_statements field.db_column stmt) c.sub_paths,
        .node c.table c.connection_here
          (dictSet c.update_statements field.db_column stmt) c.sub_paths, ?_, ?_, ?_, ?_⟩
      · simp [add_update_statement, heq]
      · simp [nodeAtPathCols]
      · simpa [Collector.table] using heq
      · simpa [Collector.update_statements] using
          dictGet_dictSet_self c.update_statements field.db_column stmt
  | cons next rest ih =>
    by_cases hlink : next.link_row_table = c.table
    · constructor
      · intro h
        have h2 : finalTableOf
            (match dictGet c.sub_paths next.db_column with
             | some s => s
             | none => Collector.node next.table (some next) [] []) rest
              ≠ some field.table := by
          intro he
          exact h (by simp [finalTableOf, hlink, he])
        have := (ih _).1 h2
        simp [add_update_statement, hlink, this]
      · intro h
        have h2 : finalTableOf
            (match dictGet c.sub_paths next.db_column with
             | some s => s
             | none => Collector.node next.table (some next) [] []) rest
              = some field.table := by
          simpa [finalTableOf, hlink] using h
        obtain ⟨sub2, leaf, hok, hnode, htab, hget⟩ := (ih _).2 h2
        refine ⟨.node c.table c.connection_here c.update_statements
            (dictSet c.sub_paths next.db_column sub2), leaf, ?_, ?_, htab, hget⟩
        · simp [add_update_statement, hlink, hok]
        · simp [nodeAtPathCols, Collector.sub_paths, dictGet_dictSet_self, hnode]
    · constructor
      · intro h
        simp [add_update_statement, hlink]
      · intro h
        exact absurd h (by simp [finalTableOf, hlink])

/-- Witness for C7: an empty path whose table mismatches the field's raises
`InvalidViaPath`, and a one-hop consistent path stores the statement at the
created leaf node for the field's table. -/
theorem add_update_statement_validates_path_witness :
    add_update_statement (.node (Table.mk 1) none [] []) (Field.mk 10 (Table.mk 2) "field_10")
        (DbExpression.mk 7) [] = .error .invalidViaPath
  ∧ (∃ c2 leaf,
      add_update_statement (.node (Table.mk 1) none [] [])
          (Field.mk 11 (Table.mk 2) "field_11") (DbExpression.mk 8)
          [LinkRowField.mk 20 (Table.mk 2) (Table.mk 1) "field_20" 21] = .ok c2
        ∧ nodeAtPathCols c2
            ([LinkRowField.mk 20 (Table.mk 2) (Table.mk 1) "field_20" 21].map
              (fun p => p.db_column)) = some leaf
        ∧ leaf.table = (Field.mk 11 (Table.mk 2) "field_11").table
        ∧ dictGet leaf.update_statements (Field.mk 11 (Table.mk 2) "field_11").db_column
            = some (DbExpression.mk 8)) :=
  ⟨(add_update_statement_validates_path_and_records_at_leaf
      (.node (Table.mk 1) none [] []) (Field.mk 10 (Table.mk 2) "field_10")
      (DbExpression.mk 7) []).1 (by decide),
   (add_update_statement_validates_path_and_records_at_leaf
      (.node (Table.mk 1) none [] []) (Field.mk 11 (Table.mk 2) "field_11")
      (DbExpression.mk 8)
      [LinkRowField.mk 20 (Table.mk 2) (Table.mk 1) "field_20" 21]).2 (by decide)⟩

lemma renderDecimal_one_zero : renderDecimal 1 0 = "1" := by
  have h : ((1 : ℚ) * (10 : ℚ) ^ (0 : Nat) + 1 / 2) = 3 / 2 := by norm_num
  have h2 : Int.floor ((3 : ℚ) / 2) = 1 := by norm_num
  simp only [renderDecimal, h, h2]
  decide

lemma renderDecimal_ten_thirds : renderDecimal (10 / 3) 5 = "3.33333" := by
  have h : ((10 : ℚ) / 3 * (10 : ℚ) ^ (5 : Nat) + 1 / 2) = 2000003 / 6 := by norm_num
  have h2 : Int.floor ((2000003 : ℚ) / 6) = 333333 := by norm_num
  simp only [renderDecimal, h, h2]
  decide

lemma foldl_orders_eq_bind (l : List PendingJoin) (init : List String) :
    l.foldl
        (fun orders j => orders ++ [j.join_path ++ "__order", j.join_path ++ "__id"])
        init
      = init ++ l.flatMap (fun j => [j.join_path ++ "__order", j.join_path ++ "__id"]) := by
  induction l generalizing init with
  | nil => simp
  | cons hd tl ih => simp [List.foldl_cons, ih]

/-- Claim C5: `BaserowDivide.to_django_expression` never raises: it always
produces a value, a zero divisor is swapped for NaN so the division yields
the NaN sentinel, and a nonzero divisor leaves the division untouched, so
`a / b` is computed exactly. -/
theorem divide_lowering_zero_divisor_yields_nan (a b : PgNumeric) :
    (∃ r, baserowDivide a b = Except.ok r)
  ∧ (b = .num 0 → baserowDivide a b = Except.ok .nan)
  ∧ (b ≠ .num 0 → baserowDivide a b = pgDiv a b)
  ∧ (∀ p q, a = .num p → b = .num q → q ≠ 0 →
      baserowDivide a b = Except.ok (.num (p / q))) := by
  rcases b with _ | q
  · rcases a with _ | p <;>
      simp [baserowDivide, caseWhenZeroThenNaN, pgEqualsZero, pgDiv]
  · by_cases hq : q = 0
    · subst hq
      rcases a with _ | p <;>
        simp [baserowDivide, caseWhenZeroThenNaN, pgEqualsZero, pgDiv]
    · rcases a with _ | p <;>
        simp_all [baserowDivide, caseWhenZeroThenNaN, pgEqualsZero, pgDiv]

/-- Witness for C5 at concrete inputs: `1/0` is the NaN sentinel, produced
without an error, and `10/4` divides normally. -/
theorem divide_lowering_zero_divisor_yields_nan_witness :
    baserowDivide (.num 1) (.num 0) = Except.ok .nan
  ∧ baserowDivide (.num 10) (.num 4) = pgDiv (.num 10) (.num 4) :=
  ⟨(divide_lowering_zero_divisor_yields_nan (.num 1) (.num 0)).2.1 rfl,
   (divide_lowering_zero_divisor_yields_nan (.num 10) (.num 4)).2.2.1 (by
      intro h
      simp only [PgNumeric.num.injEq] at h
      norm_num at h)⟩

/-- Claim C8: a well-typed division is typed as a number with
`NUMBER_MAX_DECIMAL_PLACES` (= 5 per the spec) decimal places, and `10/3`
evaluates to the fixed-precision decimal string `"3.33333"`. -/
theorem divide_typed_with_max_decimal_places (a1 a2 : BExpr) :
    exprType (divide_type_function "divide" a1 a2) = .number NUMBER_MAX_DECIMAL_PLACES
  ∧ NUMBER_MAX_DECIMAL_PLACES = 5
  ∧ baserowDivide (.num 10) (.num 3) = Except.ok (.num (10 / 3))
  ∧ renderDecimal (10 / 3) NUMBER_MAX_DECIMAL_PLACES = "3.33333" := by
  refine ⟨rfl, rfl, ?_, ?_⟩
  · norm_num [baserowDivide, caseWhenZeroThenNaN, pgEqualsZero, pgDiv]
  · exact renderDecimal_ten_thirds

/-- Claim C6: `BaserowEqual.type_function` (shared by the `not_equal`
subtype through `self.__class__()`, here the `fn` parameter) types a
same-class comparison as boolean and otherwise replaces the call by the
comparison of `totext` of both arguments; consequently `1 = '1'` evaluates
to boolean true via text coercion of both sides. -/
theorem equal_mismatched_types_coerce_via_totext (fn : String) (a1 a2 : BExpr) :
    (formulaTypeName (exprType a1) = formulaTypeName (exprType a2) →
       equal_type_function fn a1 a2 = .call fn [a1, a2] .boolean)
  ∧ (formulaTypeName (exprType a1) ≠ formulaTypeName (exprType a2) →
       equal_type_function fn a1 a2
         = .call fn [totext_type_function a1, totext_type_function a2] .boolean)
  ∧ evalFormula (equal_type_function "equal" (.literalNum 1 0) (.literalText "1"))
      = some (.vBool true) := by
  refine ⟨?_, ?_, ?_⟩
  · intro h
    rw [equal_type_function, if_pos h]
  · intro h
    rw [equal_type_function, if_neg h, equal_type_function]
    simp [totext_type_function, exprType, formulaTypeName]
  · rw [equal_type_function]
    rw [if_neg (by decide), equal_type_function, if_pos (by decide)]
    simp [evalFormula, totext_type_function, renderDecimal_one_zero]

/-- Witness for C6: the number/text comparison `1 != '1'` goes through the
mismatch branch and is rewritten to compare `totext` of both sides. -/
theorem equal_mismatched_types_coerce_via_totext_witness :
    formulaTypeName (exprType (BExpr.literalNum 1 0))
        ≠ formulaTypeName (exprType (BExpr.literalText "1"))
  ∧ equal_type_function "not_equal" (BExpr.literalNum 1 0) (BExpr.literalText "1")
      = .call "not_equal"
          [totext_type_function (BExpr.literalNum 1 0),
           totext_type_function (BExpr.literalText "1")] .boolean :=
  ⟨by decide,
   (equal_mismatched_types_coerce_via_totext "not_equal"
      (BExpr.literalNum 1 0) (BExpr.literalText "1")).2.1 (by decide)⟩

/-- Claim C9 (code bug): with mismatched argument types,
`BaserowWhenEmpty.type_function` builds the invalid-typed call carrying
"both inputs for when_empty must be the same type" but discards it (the
`return` is missing), so the call is typed with the first argument's type
and the field does not become invalid: evaluated at `when_empty(1, 'a')`
the resulting type is `number`, not `invalid`. -/
theorem when_empty_mismatch_still_typed_valid :
    when_empty_type_function "when_empty" (.literalNum 1 0) (.literalText "a")
      = .call "when_empty" [.literalNum 1 0, .literalText "a"] (.number 0)
  ∧ formulaTypeName (exprType (when_empty_type_function "when_empty"
      (.literalNum 1 0) (.literalText "a"))) = "number" := by
  exact ⟨rfl, rfl⟩

/-- Claim C4: lowering an aggregate `join` over a non-empty list of pending
joins orders the aggregation by, for each pending join innermost hop first
(the reverse of the order they were appended), the join path suffixed
`__order` then the same path suffixed `__id`. -/
theorem agg_join_ordering_keys (args0 args1 : DbExpression)
    (rest : List DbExpression) (pending_joins : List PendingJoin)
    (_hne : pending_joins ≠ []) :
    ∃ e, agg_join_to_django_expression_given_args (args0 :: args1 :: rest)
          pending_joins = some e
      ∧ e.ordering = pending_joins.reverse.flatMap
          (fun j => [j.join_path ++ "__order", j.join_path ++ "__id"]) := by
  refine ⟨_, rfl, ?_⟩
  show _calculate_aggregate_orders pending_joins = _
  rw [_calculate_aggregate_orders, foldl_orders_eq_bind]
  simp

/-- Witness for C4: two pending joins (appended outer hop first) produce
ordering keys for the inner hop first, `__order` before `__id`. -/
theorem agg_join_ordering_keys_witness :
    ∃ e, agg_join_to_django_expression_given_args
          [DbExpression.mk 0, DbExpression.mk 1]
          [PendingJoin.mk "fa" "t1", PendingJoin.mk "fa__fb" "t2"] = some e
      ∧ e.ordering = [PendingJoin.mk "fa" "t1", PendingJoin.mk "fa__fb" "t2"].reverse.flatMap
          (fun j => [j.join_path ++ "__order", j.join_path ++ "__id"]) :=
  agg_join_ordering_keys (DbExpression.mk 0) (DbExpression.mk 1) []
    [PendingJoin.mk "fa" "t1", PendingJoin.mk "fa__fb" "t2"] (by decide)

lemma rowJoinedIds_cols_append_id (r : TrackedRow) (cols : List String) :
    rowJoinedIds r (cols ++ ["id"]) = if cols = [] then [r.id] else r.reach cols := by
  by_cases h : cols = []
  · subst h
    simp [rowJoinedIds]
  · have hne : cols ++ ["id"] ≠ ["id"] := by
      intro hc
      have hlen := congrArg List.length hc
      simp at hlen
      exact h hlen
    simp [rowJoinedIds, hne, h]

lemma rowMatchesKw_starting (r : TrackedRow) (path : List LinkRowField)
    (sri : StartingRowIds) :
    rowMatchesKw r
        (if path = [] then ["id"] else path.map (fun p => p.db_column) ++ ["id"])
        (match sri with
         | .single i => QValue.single i
         | .multiple ids => QValue.listOf ids)
      = reachesStartingRowsSpec r path sri := by
  by_cases h : path = []
  · subst h
    cases sri <;>
      simp [rowMatchesKw, rowJoinedIds, qvalueMatches, reachesStartingRowsSpec]
  · have hmap : path.map (fun p => p.db_column) ≠ [] := by
      simpa using h
    cases sri <;>
      simp [rowMatchesKw, rowJoinedIds_cols_append_id, hmap, h, qvalueMatches,
        reachesStartingRowsSpec]

lemma include_rows_deleted_cases (del : Option (List (Nat × List Nat)))
    (path : List LinkRowField) :
    (_include_rows_connected_to_deleted_m2m_relationships del path = .qEmpty
      ∧ ∀ r, severedLinkRowsSpec r path del = false)
  ∨ (∃ cols ids,
      _include_rows_connected_to_deleted_m2m_relationships del path
          = .qKw (cols ++ ["id"]) (.listOf ids)
      ∧ ∀ r, severedLinkRowsSpec r path del
          = rowMatchesKw r (cols ++ ["id"]) (.listOf ids)) := by
  match del, hgl : path.getLast? with
  | none, _ =>
    exact Or.inl ⟨rfl, fun r => rfl⟩
  | some rels, none =>
    refine Or.inl ⟨?_, fun r => ?_⟩
    · simp [_include_rows_connected_to_deleted_m2m_relationships, hgl]
    · simp [severedLinkRowsSpec, hgl]
  | some rels, some last_link =>
    match hnd : natDictGet rels last_link.link_row_related_field_id with
    | none =>
      refine Or.inl ⟨?_, fun r => ?_⟩
      · simp [_include_rows_connected_to_deleted_m2m_relationships, hgl, hnd]
      · simp [severedLinkRowsSpec, hgl, hnd]
    | some row_ids =>
      refine Or.inr ⟨path.dropLast.map (fun p => p.db_column), row_ids, ?_, fun r => ?_⟩
      · simp [_include_rows_connected_to_deleted_m2m_relationships, hgl, hnd, qCombineOr]
      · rw [rowMatchesKw, rowJoinedIds_cols_append_id]
        by_cases hd : path.dropLast = []
        · simp [severedLinkRowsSpec, hgl, hnd, hd, qvalueMatches]
        · have hd2 : (path.dropLast.map (fun p => p.db_column)) ≠ [] := by
            cases hpl : path.dropLast with
            | nil => exact absurd hpl hd
            | cons a l => simp
          have hd3 : ((path.map (fun p => p.db_column)).dropLast) ≠ [] := by
            rw [List.map_dropLast] at hd2
            exact hd2
          simp [severedLinkRowsSpec, hgl, hnd, hd, hd2, hd3, qvalueMatches]

/-- Claim C1: executing a node's pending update statements with a starting
row scope always filters the bulk UPDATE, and a row is touched exactly when
(a) its id joined back along the accumulated link path equals or is
contained in the starting row id(s), or (b) the deleted-link-rows map has an
entry for the `link_row_related_field_id` of the path's last hop and the
row's id joined along the path after the starting table is in that entry's
row-id set — so rows whose m2m link to the starting row was just severed
are still updated. -/
theorem starting_scope_filter_is_reach_or_severed_disjunction
    (c : Collector) (path : List LinkRowField) (sri : StartingRowIds)
    (del : Option (List (Nat × List Nat))) (r : TrackedRow) :
    ((_execute_pending_update_statements c path (some sri) del).rowFilter).isSome = true
  ∧ execRowMatches (_execute_pending_update_statements c path (some sri) del) r
      = (reachesStartingRowsSpec r path sri || severedLinkRowsSpec r path del) := by
  constructor
  · rfl
  · rcases include_rows_deleted_cases del path with ⟨hinc, hspec⟩ | ⟨cols, ids, hinc, hspec⟩
    · simp only [execRowMatches, _execute_pending_update_statements, hinc,
        TableManager.includesRow, qCombineOr, Bool.true_and]
      rw [qMatches, rowMatchesKw_starting, hspec r, Bool.or_false]
    · simp only [execRowMatches, _execute_pending_update_statements, hinc,
        TableManager.includesRow, qCombineOr, Bool.true_and]
      rw [qMatches, qMatches, qMatches, rowMatchesKw_starting, hspec r]

lemma mem_execute_all_sub_paths_of_mem {k : String} {sub : Collector}
    {subs : List (String × Collector)} (h : (k, sub) ∈ subs)
    (sri : Option StartingRowIds) (path : List LinkRowField)
    (del : Option (List (Nat × List Nat))) {u : ExecutedUpdate}
    (hu : u ∈ execute_all sub sri path del) :
    u ∈ execute_all_sub_paths subs sri path del := by
  induction subs with
  | nil => cases h
  | cons hd tl ih =>
    obtain ⟨k2, s2⟩ := hd
    rw [execute_all_sub_paths_cons]
    rcases List.mem_cons.mp h with h1 | h1
    · have hs : sub = s2 := congrArg Prod.snd h1
      subst hs
      exact List.mem_append_left _ hu
    · exact List.mem_append_right _ (ih h1)

lemma descendant_trace_mem {c : Collector} {inPath : List LinkRowField}
    {d : Collector} {dIn : List LinkRowField}
    (h : DescendantVia c inPath d dIn) (sri : Option StartingRowIds)
    (del : Option (List (Nat × List Nat))) :
    ∀ u ∈ execute_all d sri dIn del,
      u ∈ execute_all_sub_paths c.sub_paths sri (consConnection c inPath) del := by
  induction h with
  | child hmem =>
    intro u hu
    exact mem_execute_all_sub_paths_of_mem hmem _ _ _ hu
  | step hmem hdesc ih =>
    intro u hu
    refine mem_execute_all_sub_paths_of_mem hmem _ _ _ ?_
    rw [execute_all_eq]
    exact List.mem_cons_of_mem _ (ih u hu)

lemma sub_trace_embeds_of_mem {k : String} {sub : Collector}
    {subs : List (String × Collector)} (h : (k, sub) ∈ subs)
    (sri : Option StartingRowIds) (path : List LinkRowField)
    (del : Option (List (Nat × List Nat))) :
    execute_all sub sri path del <:+: execute_all_sub_paths subs sri path del := by
  induction subs with
  | nil => cases h
  | cons hd tl ih =>
    obtain ⟨k2, s2⟩ := hd
    rw [execute_all_sub_paths_cons]
    rcases List.mem_cons.mp h with h1 | h1
    · have hs : sub = s2 := congrArg Prod.snd h1
      subst hs
      exact (List.prefix_append _ _).isInfix
    · exact (ih h1).trans (List.suffix_append _ _).isInfix

lemma child_trace_embeds {k : String} {sub c : Collector}
    (hmem : (k, sub) ∈ c.sub_paths) (sri : Option StartingRowIds)
    (inPath : List LinkRowField) (del : Option (List (Nat × List Nat))) :
    execute_all sub sri (consConnection c inPath) del
      <:+: execute_all c sri inPath del := by
  rw [execute_all_eq c sri inPath del]
  exact (sub_trace_embeds_of_mem hmem _ _ _).trans (List.suffix_cons _ _).isInfix

lemma descendant_trace_embeds {c : Collector} {inPath : List LinkRowField}
    {d : Collector} {dIn : List LinkRowField}
    (h : DescendantVia c inPath d dIn) (sri : Option StartingRowIds)
    (del : Option (List (Nat × List Nat))) :
    execute_all d sri dIn del <:+: execute_all c sri inPath del := by
  induction h with
  | child hmem => exact child_trace_embeds hmem _ _ _
  | step hmem hdesc ih => exact ih.trans (child_trace_embeds hmem _ _ _)

/-- Claim C2: in `execute_all`'s execution order, a node's bulk UPDATE runs
strictly before the bulk UPDATE of any of its sub-path descendants: the
node's own update heads its trace, every descendant's update sits in the
tail, and a descendant's whole sub-trace embeds contiguously in the node's
trace, so the ordering holds inside any enclosing run as well. -/
theorem node_update_executes_before_descendant_updates
    (c : Collector) (inPath : List LinkRowField) (d : Collector)
    (dIn : List LinkRowField) (sri : Option StartingRowIds)
    (del : Option (List (Nat × List Nat)))
    (h : DescendantVia c inPath d dIn) :
    (∃ rest, execute_all c sri inPath del
        = _execute_pending_update_statements c (consConnection c inPath) sri del :: rest
      ∧ _execute_pending_update_statements d (consConnection d dIn) sri del ∈ rest)
  ∧ execute_all d sri dIn del <:+: execute_all c sri inPath del := by
  constructor
  · refine ⟨execute_all_sub_paths c.sub_paths sri (consConnection c inPath) del,
      execute_all_eq c sri inPath del, ?_⟩
    apply descendant_trace_mem h
    rw [execute_all_eq]
    exact List.mem_cons_self _ _
  · exact descendant_trace_embeds h sri del

/-- Witness for C2: in the two-node fixture tree the root's update heads the
trace and the child's update is in the tail. -/
theorem node_update_executes_before_descendant_updates_witness :
    DescendantVia exampleRootCollector [] exampleChildCollector []
  ∧ ((∃ rest, execute_all exampleRootCollector none [] none
        = _execute_pending_update_statements exampleRootCollector
            (consConnection exampleRootCollector []) none none :: rest
      ∧ _execute_pending_update_statements exampleChildCollector
            (consConnection exampleChildCollector []) none none ∈ rest)
    ∧ execute_all exampleChildCollector none [] none
        <:+: execute_all exampleRootCollector none [] none) :=
  ⟨@DescendantVia.child exampleRootCollector [] "field_5" exampleChildCollector
      (by simp [exampleRootCollector, Collector.sub_paths]),
   node_update_executes_before_descendant_updates exampleRootCollector []
      exampleChildCollector [] none none
      (@DescendantVia.child exampleRootCollector [] "field_5" exampleChildCollector
        (by simp [exampleRootCollector, Collector.sub_paths]))⟩

lemma length_execute_all_sub (sri : Option StartingRowIds)
    (path : List LinkRowField) (del : Option (List (Nat × List Nat))) :
    ∀ subs : List (String × Collector),
      (∀ k sub, (k, sub) ∈ subs →
        ∀ sri2 inPath2 del2, (execute_all sub sri2 inPath2 del2).length = count_nodes sub) →
      (execute_all_sub_paths subs sri path del).length = count_nodes_sub subs := by
  intro subs
  induction subs with
  | nil =>
    intro _
    rw [execute_all_sub_paths_nil, count_nodes_sub_nil]
    rfl
  | cons hd tl ih =>
    intro hsub
    obtain ⟨k, sub⟩ := hd
    rw [execute_all_sub_paths_cons, count_nodes_sub_cons, List.length_append]
    rw [hsub k sub (List.mem_cons_self _ _) sri path del]
    rw [ih (fun k2 s2 hm => hsub k2 s2 (List.mem_cons_of_mem _ hm))]

lemma length_execute_all (c : Collector) :
    ∀ (sri : Option StartingRowIds) (inPath : List LinkRowField)
      (del : Option (List (Nat × List Nat))),
      (execute_all c sri inPath del).length = count_nodes c := by
  induction c using collectorStrongInduction with
  | h t conn stmts subs ih =>
    intro sri inPath del
    rw [execute_all_eq, count_nodes_eq]
    simp only [List.length_cons, Collector.sub_paths]
    rw [length_execute_all_sub _ _ _ subs ih]
    omega

lemma execute_all_sub_paths_mem_split {subs : List (String × Collector)}
    {sri : Option StartingRowIds} {path : List LinkRowField}
    {del : Option (List (Nat × List Nat))} {u : ExecutedUpdate}
    (hu : u ∈ execute_all_sub_paths subs sri path del) :
    ∃ k sub, (k, sub) ∈ subs ∧ u ∈ execute_all sub sri path del := by
  induction subs with
  | nil =>
    rw [execute_all_sub_paths_nil] at hu
    cases hu
  | cons hd tl ih =>
    obtain ⟨k2, s2⟩ := hd
    rw [execute_all_sub_paths_cons] at hu
    rcases List.mem_append.mp hu with h1 | h1
    · exact ⟨k2, s2, List.mem_cons_self _ _, h1⟩
    · obtain ⟨k, sub, hm, hu2⟩ := ih h1
      exact ⟨k, sub, List.mem_cons_of_mem _ hm, hu2⟩

lemma exec_mem_is_node_update (c : Collector) :
    ∀ (sri : Option StartingRowIds) (inPath : List LinkRowField)
      (del : Option (List (Nat × List Nat))) (u : ExecutedUpdate),
      u ∈ execute_all c sri inPath del →
      ∃ d p, NodeIn d c ∧ u = _execute_pending_update_statements d p sri del := by
  induction c using collectorStrongInduction with
  | h t conn stmts subs ih =>
    intro sri inPath del u hu
    rw [execute_all_eq] at hu
    rcases List.mem_cons.mp hu with h1 | h1
    · exact ⟨_, _, NodeIn.refl _, h1⟩
    · obtain ⟨k, sub, hmem, hu2⟩ := execute_all_sub_paths_mem_split h1
      obtain ⟨d, p, hn, hequ⟩ := ih k sub hmem _ _ _ u hu2
      exact ⟨d, p, NodeIn.step hmem hn, hequ⟩

lemma node_in_executed {d c : Collector} (h : NodeIn d c) :
    ∀ (sri : Option StartingRowIds) (inPath : List LinkRowField)
      (del : Option (List (Nat × List Nat))),
      ∃ p, _execute_pending_update_statements d p sri del
        ∈ execute_all c sri inPath del := by
  induction h with
  | refl =>
    intro sri inPath del
    exact ⟨consConnection d inPath, by
      rw [execute_all_eq]
      exact List.mem_cons_self _ _⟩
  | step hmem hd ih =>
    intro sri inPath del
    obtain ⟨p, hp⟩ := ih sri (consConnection _ inPath) del
    refine ⟨p, ?_⟩
    rw [execute_all_eq]
    exact List.mem_cons_of_mem _ (mem_execute_all_sub_paths_of_mem hmem _ _ _ hp)

/-- Claim C3: `execute_all` issues exactly one bulk UPDATE per table-node
present in the collector tree — never one per field or per row: the trace
has exactly `count_nodes` entries, every entry is some node's single UPDATE
carrying all columns accumulated at that node, every node contributes its
UPDATE, and a table with no node in the tree receives zero updates. -/
theorem one_bulk_update_per_table_node
    (c : Collector) (sri : Option StartingRowIds) (inPath : List LinkRowField)
    (del : Option (List (Nat × List Nat))) :
    (execute_all c sri inPath del).length = count_nodes c
  ∧ (∀ u ∈ execute_all c sri inPath del,
      ∃ d p, NodeIn d c ∧ u = _execute_pending_update_statements d p sri del
        ∧ u.table = d.table ∧ u.columns = d.update_statements)
  ∧ (∀ d, NodeIn d c →
      ∃ p, _execute_pending_update_statements d p sri del ∈ execute_all c sri inPath del)
  ∧ (∀ t : Table, (∀ d, NodeIn d c → d.table ≠ t) →
      ∀ u ∈ execute_all c sri inPath del, u.table ≠ t) := by
  refine ⟨length_execute_all c sri inPath del, ?_, ?_, ?_⟩
  · intro u hu
    obtain ⟨d, p, hn, hequ⟩ := exec_mem_is_node_update c sri inPath del u hu
    refine ⟨d, p, hn, hequ, ?_, ?_⟩
    · rw [hequ]
      rfl
    · rw [hequ]
      rfl
  · intro d hn
    exact node_in_executed hn sri inPath del
  · intro t ht u hu
    obtain ⟨d, p, hn, hequ⟩ := exec_mem_is_node_update c sri inPath del u hu
    have htab : u.table = d.table := by
      rw [hequ]
      rfl
    rw [htab]
    exact ht d hn

/-- Witness for C3: on the two-node fixture tree the trace has exactly one
update per node. -/
theorem one_bulk_update_per_table_node_witness :
    (execute_all exampleRootCollector none [] none).length
      = count_nodes exampleRootCollector :=
  (one_bulk_update_per_table_node exampleRootCollector none [] none).1

end Baserow
